import Mathlib

/-!
Verification of the invoice field extraction engine (pypdf.py).

The Python source operates on Unicode strings; here a string is modelled as
a `List Char`.  Python's `re` module with `str` patterns matches Unicode
character classes: the digit class is modelled as the ASCII digits (the
only digits occurring in the documents), and the whitespace class / the
whitespace set of `str.strip` is modelled by the fixed set `isSpaceChar`
covering the whitespace characters that occur in invoice text.
-/

namespace Pypdf

/-- Character class for the regex digit class, modelled as ASCII digits. -/
def isDigitChar (c : Char) : Bool := 48 ≤ c.toNat && c.toNat ≤ 57

/-- Whitespace set modelling the regex whitespace class and Python
string strip: space, tab, newline, carriage return, vertical tab,
form feed, no-break space and the ideographic space. -/
def isSpaceChar (c : Char) : Bool :=
  c.toNat = 32 || c.toNat = 9 || c.toNat = 10 || c.toNat = 13 ||
  c.toNat = 11 || c.toNat = 12 || c.toNat = 160 || c.toNat = 12288

/-- Lower-case an ASCII letter, used to model case-insensitive matching. -/
def lowerAscii (c : Char) : Char :=
  if 65 ≤ c.toNat && c.toNat ≤ 90 then Char.ofNat (c.toNat + 32) else c

/-- The two currency markers recognised by the amount regex: the
half-width yen sign U+00A5 (code 165) and the full-width yen sign
U+FFE5 (code 65509). -/
def isMarkerChar (c : Char) : Bool := c.toNat = 165 || c.toNat = 65509

/-- Width of a line as computed by calculate_width in the source:
2 for a character whose code point exceeds 127, else 1. -/
def calculate_width (l : List Char) : Nat :=
  (l.map (fun c => if c.toNat > 127 then 2 else 1)).sum

/-- Python str.strip: remove leading and trailing whitespace. -/
def stripLC (l : List Char) : List Char :=
  ((l.dropWhile isSpaceChar).reverse.dropWhile isSpaceChar).reverse

/-- Python text.split on a newline character. -/
def splitNL : List Char → List (List Char)
  | [] => [[]]
  | c :: rest =>
    if c = '\n' then [] :: splitNL rest
    else
      match splitNL rest with
      | [] => [[c]]
      | l :: ls => (c :: l) :: ls

/-- Python sep.join over a list of strings. -/
def pyJoin (sep : List Char) : List (List Char) → List Char
  | [] => []
  | [p] => p
  | p :: q :: ps => p ++ sep ++ pyJoin sep (q :: ps)

/-- Greedy whitespace consumption, modelling a whitespace-class star
whose following token can never match whitespace. -/
def dropWS (l : List Char) : List Char := l.dropWhile isSpaceChar

/-- Consume exactly n digit characters, returning them and the rest. -/
def takeNDigits : Nat → List Char → Option (List Char × List Char)
  | 0, l => some ([], l)
  | _ + 1, [] => none
  | n + 1, c :: r =>
    if isDigitChar c then (takeNDigits n r).map (fun p => (c :: p.1, p.2))
    else none

/-- Consume optional whitespace followed by the given unit character,
modelling a whitespace star then a literal CJK unit in the date regex. -/
def expectUnit (u : Char) (r : List Char) : Option (List Char) :=
  match dropWS r with
  | c :: rest => if c = u then some rest else none
  | [] => none

/-- Match a one-or-two digit group followed by optional whitespace and the
unit character u, with the greedy two-digit attempt tried first exactly as
the regex engine backtracks.  Returns the captured numeral and the rest. -/
def dateNum2 (u : Char) (r : List Char) : Option (List Char × List Char) :=
  match r with
  | [] => none
  | c1 :: rest1 =>
    if isDigitChar c1 then
      match rest1 with
      | c2 :: rest2 =>
        if isDigitChar c2 then
          match expectUnit u rest2 with
          | some r2 => some ([c1, c2], r2)
          | none => (expectUnit u rest1).map (fun r2 => ([c1], r2))
        else (expectUnit u rest1).map (fun r2 => ([c1], r2))
      | [] => (expectUnit u rest1).map (fun r2 => ([c1], r2))
    else none

/-- Attempt the date pattern of extraction_issue_date at the head of the
list: four digits, optional whitespace, the year unit, then the month and
day groups, each a one-or-two digit numeral with optional surrounding
whitespace.  Returns the three captured groups. -/
def dateMatchAt (l : List Char) : Option (List Char × List Char × List Char) :=
  match takeNDigits 4 l with
  | none => none
  | some (y, r1) =>
    match expectUnit '年' r1 with
    | none => none
    | some r2 =>
      match dateNum2 '月' (dropWS r2) with
      | none => none
      | some (m, r3) =>
        (dateNum2 '日' (dropWS r3)).map (fun p => (y, m, p.1))

/-- Leftmost search for the date pattern, as re.search scans positions. -/
def searchDateGroups : List Char → Option (List Char × List Char × List Char)
  | [] => dateMatchAt []
  | c :: rest =>
    match dateMatchAt (c :: rest) with
    | some g => some g
    | none => searchDateGroups rest

/-- Source function extraction_issue_date: first match of the date
pattern, reassembled without the interior whitespace. -/
def extraction_issue_date (t : List Char) : Option (List Char) :=
  (searchDateGroups t).map
    (fun g => g.1 ++ '年' :: (g.2.1 ++ '月' :: (g.2.2 ++ ['日'])))

/-- Match exactly n digits at the head, not followed by a further digit;
the caller checks the preceding character, so together this models an
isolated digit run bounded by non-digits. -/
def isolatedDigits (n : Nat) (l : List Char) : Option (List Char) :=
  match takeNDigits n l with
  | none => none
  | some (ds, rest) =>
    match rest with
    | [] => some ds
    | c :: _ => if isDigitChar c then none else some ds

/-- Leftmost search for an isolated n-digit run.  The prev argument holds
the character before the current position (the lookbehind), i the current
position index.  Returns the start index and the digits. -/
def searchIsolated (n : Nat) : Option Char → Nat → List Char → Option (Nat × List Char)
  | prev, i, l =>
    let okPrev : Bool :=
      match prev with
      | some c => !isDigitChar c
      | none => true
    match (if okPrev then isolatedDigits n l else none) with
    | some ds => some (i, ds)
    | none =>
      match l with
      | [] => none
      | c :: rest => searchIsolated n (some c) (i + 1) rest

/-- Case-insensitive prefix test over ASCII letters. -/
def startsWithCI : List Char → List Char → Bool
  | [], _ => true
  | _ :: _, [] => false
  | p :: ps, c :: cs => lowerAscii c == lowerAscii p && startsWithCI ps cs

/-- Containment test for the context markers of the third strategy of
extraction_invoice_number: the word 发票, the word invoice, or the literal
NO. token, all case-insensitively. -/
def hasContext : List Char → Bool
  | [] => false
  | c :: rest =>
    startsWithCI "发票".data (c :: rest) ||
    startsWithCI "invoice".data (c :: rest) ||
    startsWithCI "no.".data (c :: rest) ||
    hasContext rest

/-- Consume the label alternation of the second strategy: the four
character invoice-number label, or NO with an optional period,
case-insensitively.  Returns the rest after the label. -/
def s2label (l : List Char) : Option (List Char) :=
  if startsWithCI "发票号码".data l then some (l.drop 4)
  else if startsWithCI "no".data l then
    some (match l.drop 2 with
          | '.' :: r => r
          | r => r)
  else none

/-- Greedy consumption of the separator class of the second strategy:
colons (half- and full-width) and whitespace. -/
def dropColonsWS (l : List Char) : List Char :=
  l.dropWhile (fun c => c == ':' || c == '：' || isSpaceChar c)

/-- Attempt the labeled eight-digit pattern at the head of the list. -/
def s2MatchAt (l : List Char) : Option (List Char) :=
  match s2label l with
  | none => none
  | some r1 => (takeNDigits 8 (dropColonsWS (dropWS r1))).map Prod.fst

/-- Leftmost search for the labeled eight-digit pattern. -/
def s2search : List Char → Option (List Char)
  | [] => s2MatchAt []
  | c :: rest =>
    match s2MatchAt (c :: rest) with
    | some ds => some ds
    | none => s2search rest

/-- Python slice t lo hi with clamping at both ends. -/
def pySlice (t : List Char) (lo hi : Nat) : List Char :=
  (t.drop lo).take (hi - lo)

/-- Source function extraction_invoice_number: three strategies in order,
first the isolated twenty-digit run, then the labeled eight-digit form,
then the first isolated eight-digit run accepted only when the window of
twenty characters before and after it contains a context marker. -/
def extraction_invoice_number (t : List Char) : Option (List Char) :=
  match searchIsolated 20 none 0 t with
  | some p => some p.2
  | none =>
    match s2search t with
    | some ds => some ds
    | none =>
      match searchIsolated 8 none 0 t with
      | some (start, ds) =>
        if hasContext (pySlice t (start - 20) (min t.length (start + 8 + 20)))
        then some ds
        else none
      | none => none

/-- Loop of extraction_project_name over the stripped lines: the boolean
is the in_project_section flag, the accumulator the collected parts.  The
stop test in the section uses the star and the half-width yen sign
exactly as the source line startswith tuple does. -/
def projLoop : List (List Char) → Bool → List (List Char) → List (List Char)
  | [], _, parts => parts
  | line :: rest, inSec, parts =>
    let l := stripLC line
    if inSec then
      if l.head? == some '*' || l.head? == some '¥' then parts
      else if calculate_width l < 22 then parts
      else projLoop rest true (parts ++ [l])
    else
      if l.head? == some '*' then projLoop rest true (parts ++ [l])
      else projLoop rest false parts

/-- Source function extraction_project_name: scan the newline-split lines
with the two-state loop and join the collected parts with a space. -/
def extraction_project_name (t : List Char) : List Char :=
  pyJoin [' '] (projLoop (splitNL t) false [])

/-- Attempt the amount pattern at the head of the list: a currency
marker, optional whitespace, a maximal nonempty digit run, a period and
two digits.  Returns the captured group and the rest after the match. -/
def amountMatchAt : List Char → Option (List Char × List Char)
  | [] => none
  | c :: r =>
    if isMarkerChar c then
      let r1 := dropWS r
      let ds := r1.takeWhile isDigitChar
      if ds.isEmpty then none
      else
        match r1.dropWhile isDigitChar with
        | '.' :: d1 :: d2 :: r3 =>
          if isDigitChar d1 && isDigitChar d2 then
            some (ds ++ '.' :: [d1, d2], r3)
          else none
        | _ => none
    else none

/-- Fuelled scan of re.findall for the amount pattern: on a match, resume
after the match (matches never overlap); otherwise advance one position.
The fuel, set to the length of the text by the wrapper below, bounds the
number of scan steps and is never exhausted on a full run. -/
def amountFindAllF : Nat → List Char → List (List Char)
  | 0, _ => []
  | _ + 1, [] => []
  | fuel + 1, c :: rest =>
    match amountMatchAt (c :: rest) with
    | some (cap, r) => cap :: amountFindAllF fuel r
    | none => amountFindAllF fuel rest

/-- Candidate list of extraction_amount, the re.findall capture list. -/
def amountFindAll (l : List Char) : List (List Char) :=
  amountFindAllF l.length l

/-- Numeric value of a digit string. -/
def digitsVal (l : List Char) : Nat :=
  l.foldl (fun a c => a * 10 + (c.toNat - 48)) 0

/-- Python float conversion restricted to the digit-period-two-digit
shapes the candidates take; any other shape models a ValueError, which
the source converts to None. -/
def parseDecimal2 (l : List Char) : Option ℚ :=
  let intPart := l.takeWhile isDigitChar
  let rest := l.dropWhile isDigitChar
  match rest with
  | '.' :: frac =>
    if !intPart.isEmpty && frac.length == 2 && frac.all isDigitChar then
      some ((digitsVal intPart : ℚ) + (digitsVal frac : ℚ) / 100)
    else none
  | _ => none

/-- Source function extraction_amount: the candidate list from re.findall
and the zero, one, many disambiguation with the index-two pick. -/
def extraction_amount (t : List Char) : Option ℚ :=
  match amountFindAll t with
  | [] => none
  | [m] => parseDecimal2 m
  | ms =>
    match ms[2]? with
    | some m => parseDecimal2 m
    | none => none

/-- Error raised while acquiring the text of a document, modelled as a
message string; in the source this is the exception escaping fitz. -/
abbrev PdfError := List Char

/-- Record assembled by extract_invoice_data from one document text: the
four extracted fields in the order of the source dictionary. -/
structure InvoiceRecord where
  invoice_number : Option (List Char)
  issue_date : Option (List Char)
  project_name : List Char
  total_amount : Option ℚ
deriving DecidableEq, Repr

/-- Composition of the four extractors on one text, the body of
extract_invoice_data after the text has been obtained. -/
def buildRecord (text : List Char) : InvoiceRecord :=
  { invoice_number := extraction_invoice_number text
    issue_date := extraction_issue_date text
    project_name := extraction_project_name text
    total_amount := extraction_amount text }

/-- Source function extract_invoice_data.  Text acquisition through the
external document library is modelled as an Except input per document:
on success the record is built from the text, and an acquisition failure
is re-raised to the caller exactly as the except blocks of the source do. -/
def extract_invoice_data : Except PdfError (List Char) → Except PdfError InvoiceRecord
  | .error e => .error e
  | .ok t => .ok (buildRecord t)

/-- Python str.endswith for the pdf extension filter of the batch loop. -/
def endsWithPdf (fn : List Char) : Bool := ".pdf".data.isSuffixOf fn

/-- Loop of traverse_pdf_files with the pdf_data accumulator made
explicit.  A raised acquisition error carries the accumulator state at
the moment of the raise, so the partial result sequence built before the
abort is observable. -/
def traverseLoop :
    List (List Char × Except PdfError (List Char)) →
    List (List Char × InvoiceRecord) →
    Except (PdfError × List (List Char × InvoiceRecord)) (List (List Char × InvoiceRecord))
  | [], acc => .ok acc
  | (fn, acq) :: rest, acc =>
    if endsWithPdf fn then
      match extract_invoice_data acq with
      | .ok d => traverseLoop rest (acc ++ [(fn, d)])
      | .error e => .error (e, acc)
    else traverseLoop rest acc

/-- Source function traverse_pdf_files over a directory listing, each
entry pairing a filename with the outcome of acquiring its text. -/
def traverse_pdf_files (docs : List (List Char × Except PdfError (List Char))) :
    Except (PdfError × List (List Char × InvoiceRecord)) (List (List Char × InvoiceRecord)) :=
  traverseLoop docs []

/-- Text with two isolated eight-digit runs: the first, at index 22, has
no context marker within its twenty-character window, while the second,
at index 56, is directly preceded by the invoice word.  Used to observe
that the third strategy of the number extractor never retries. -/
def noRetryText : List Char :=
  "aaaaaaaaaaaaaaaaaaaaaa12345678bbbbbbbbbbbbbbbbbbbbbbbb发票87654321".data

/-- Occurrence, at drop offset i of the text, of a substring in the shape
of the amount pattern: a currency marker, a run of whitespace, a nonempty
digit run, a period and two digits; cap is the captured numeral part.
This is the declarative reading of the candidate description in the
specification, against which the scan of re.findall is compared. -/
def IsAmountOccurrence (t cap : List Char) : Prop :=
  ∃ i m ws ds d1 d2 post,
    t.drop i = m :: (ws ++ ds ++ '.' :: d1 :: d2 :: post) ∧
    isMarkerChar m = true ∧ (∀ c ∈ ws, isSpaceChar c = true) ∧
    ds ≠ [] ∧ (∀ c ∈ ds, isDigitChar c = true) ∧
    isDigitChar d1 = true ∧ isDigitChar d2 = true ∧
    cap = ds ++ '.' :: [d1, d2]

end Pypdf

namespace Pypdf

/-! ### Character class facts -/

theorem isSpaceChar_of_isDigitChar {c : Char} (h : isDigitChar c = true) :
    isSpaceChar c = false := by
  simp only [isDigitChar, isSpaceChar, Bool.and_eq_true, Bool.or_eq_false_iff,
    decide_eq_true_eq, decide_eq_false_iff_not] at *
  omega

theorem isMarkerChar_of_isDigitChar {c : Char} (h : isDigitChar c = true) :
    isMarkerChar c = false := by
  simp only [isDigitChar, isMarkerChar, Bool.and_eq_true, Bool.or_eq_false_iff,
    decide_eq_true_eq, decide_eq_false_iff_not] at *
  omega

theorem isMarkerChar_of_isSpaceChar {c : Char} (h : isSpaceChar c = true) :
    isMarkerChar c = false := by
  simp only [isSpaceChar, isMarkerChar, Bool.or_eq_true, Bool.or_eq_false_iff,
    decide_eq_true_eq, decide_eq_false_iff_not] at *
  omega

/-! ### List scanning helpers -/

theorem dropWhile_head_false {p : Char → Bool} (x : List Char)
    (h : ∀ c, x.head? = some c → p c = false) : List.dropWhile p x = x := by
  cases x with
  | nil => rfl
  | cons c r => simp [List.dropWhile_cons, h c rfl]

theorem takeWhile_head_false {p : Char → Bool} (x : List Char)
    (h : ∀ c, x.head? = some c → p c = false) : List.takeWhile p x = [] := by
  cases x with
  | nil => rfl
  | cons c r => simp [List.takeWhile_cons, h c rfl]

theorem head?_drop_eq : ∀ (l : List Char) (i : Nat), (l.drop i).head? = l[i]?
  | [], i => by cases i <;> rfl
  | _ :: _, 0 => by simp
  | _ :: r, i + 1 => by simp [head?_drop_eq r i]

/-! ### Warm-up claims: determinism of the record builder -/

/-- Claim C8: the record builder is deterministic and idempotent: two
invocations of the composition of the four extractors on identical text
yield identical records, field by field. -/
theorem record_builder_deterministic : ∀ t1 t2 : List Char, t1 = t2 →
    buildRecord t1 = buildRecord t2 ∧
    (buildRecord t1).invoice_number = (buildRecord t2).invoice_number ∧
    (buildRecord t1).issue_date = (buildRecord t2).issue_date ∧
    (buildRecord t1).project_name = (buildRecord t2).project_name ∧
    (buildRecord t1).total_amount = (buildRecord t2).total_amount := by
  rintro t1 t2 rfl
  exact ⟨rfl, rfl, rfl, rfl, rfl⟩

/-- Witness for C8 at a concrete text. -/
theorem record_builder_deterministic_witness :
    buildRecord "发票 ¥9.99".data = buildRecord "发票 ¥9.99".data :=
  (record_builder_deterministic "发票 ¥9.99".data "发票 ¥9.99".data rfl).1

/-! ### Description extractor: stripping, width threshold, join -/

theorem stripLC_pad (ws1 ws2 l : List Char)
    (h1 : ∀ c ∈ ws1, isSpaceChar c = true) (h2 : ∀ c ∈ ws2, isSpaceChar c = true) :
    stripLC (ws1 ++ l ++ ws2) = stripLC l := by
  unfold stripLC
  rw [List.append_assoc, List.dropWhile_append_of_pos h1, List.dropWhile_append]
  by_cases he : (List.dropWhile isSpaceChar l).isEmpty
  · rw [if_pos he]
    have hl : List.dropWhile isSpaceChar l = [] := by simpa using he
    have hw2 : List.dropWhile isSpaceChar ws2 = [] := by
      have h0 := @List.dropWhile_append_of_pos Char isSpaceChar ws2 [] h2
      simpa using h0
    rw [hl, hw2]
  · rw [if_neg he, List.reverse_append,
      List.dropWhile_append_of_pos (fun c hc => h2 c (List.mem_reverse.mp hc))]

/-- Claim C9: every line is stripped before the width computation and the
start-marker test: padding a line with whitespace on either side never
changes the behaviour of the scanning loop, and a padded line whose first
non-whitespace character is the star still starts the section. -/
theorem description_lines_stripped :
    ∀ (ws1 ws2 line : List Char) (rest parts : List (List Char)) (b : Bool),
      (∀ c ∈ ws1, isSpaceChar c = true) → (∀ c ∈ ws2, isSpaceChar c = true) →
      projLoop ((ws1 ++ line ++ ws2) :: rest) b parts = projLoop (line :: rest) b parts ∧
      ((stripLC line).head? = some '*' →
        projLoop ((ws1 ++ line ++ ws2) :: rest) false parts =
          projLoop rest true (parts ++ [stripLC line])) := by
  intro ws1 ws2 line rest parts b h1 h2
  have hpad := stripLC_pad ws1 ws2 line h1 h2
  constructor
  · simp only [projLoop, hpad]
  · intro hstar
    simp only [projLoop, hpad, hstar]
    simp

/-- Witness for C9: a star line padded by spaces still starts the
section and is stored stripped. -/
theorem description_lines_stripped_witness :
    projLoop ["   *报销项目甲  ".data] false [] = ["*报销项目甲".data] := by
  have h :=
    (description_lines_stripped "   ".data "  ".data "*报销项目甲".data [] [] false
      (by decide) (by decide)).2 (by decide)
  exact (by decide : ("   *报销项目甲  ".data : List Char) = "   ".data ++ "*报销项目甲".data ++ "  ".data) ▸ h.trans (by decide)

/-- Claim C5: inside the section, for a line that does not start with a
stop marker the threshold is a strict less-than cutoff: width exactly 22
is appended and scanning continues, width below 22 stops without
appending. -/
theorem description_width_threshold :
    ∀ (line : List Char) (rest parts : List (List Char)),
      ¬ (stripLC line).head? = some '*' → ¬ (stripLC line).head? = some '¥' →
      (calculate_width (stripLC line) = 22 →
        projLoop (line :: rest) true parts = projLoop rest true (parts ++ [stripLC line])) ∧
      (calculate_width (stripLC line) < 22 →
        projLoop (line :: rest) true parts = parts) := by
  intro line rest parts hs hy
  have hb : ((stripLC line).head? == some '*' || (stripLC line).head? == some '¥') = false := by
    simp only [Bool.or_eq_false_iff, beq_eq_false_iff_ne, ne_eq]
    exact ⟨hs, hy⟩
  constructor
  · intro hw
    simp [projLoop, hb, hw]
  · intro hw
    simp [projLoop, hb, hw]

/-- Witness for C5: a line of width exactly 22 inside the section is
appended and the scan continues to the end of input. -/
theorem description_width_threshold_witness :
    projLoop ["发票项目发票项目发票项".data] true [] = ["发票项目发票项目发票项".data] := by
  have h :=
    (description_width_threshold "发票项目发票项目发票项".data [] []
      (by decide) (by decide)).1 (by decide)
  exact h.trans (by decide)

/-- Claim C2 evidence: in the source the in-section stop test checks only
the star and the half-width yen sign, so a line starting with the
full-width yen sign and of width at least 22 is appended rather than
terminating the description, contradicting the docstring of the function
and the specification. -/
theorem description_fullwidth_yen_appended :
    extraction_project_name "*AAAAAAAAAAAAAAAAAAAAAAAA\n￥123456789012345678901234\nend".data
        = "*AAAAAAAAAAAAAAAAAAAAAAAA ￥123456789012345678901234".data ∧
      22 ≤ calculate_width "￥123456789012345678901234".data ∧
      ("￥123456789012345678901234".data).head? = some '￥' := by
  decide

theorem pyJoin_eq_flatten_intersperse :
    ∀ (sep : List Char) (ps : List (List Char)),
      pyJoin sep ps = (List.intersperse sep ps).flatten
  | _, [] => rfl
  | _, [p] => by simp [pyJoin]
  | sep, p :: q :: ps => by
    rw [pyJoin, List.intersperse_cons₂, List.flatten_cons, List.flatten_cons,
      pyJoin_eq_flatten_intersperse sep (q :: ps)]
    simp

theorem projLoop_no_star :
    ∀ (lines parts : List (List Char)),
      (∀ l ∈ lines, ¬ (stripLC l).head? = some '*') →
      projLoop lines false parts = parts
  | [], _, _ => rfl
  | line :: rest, parts, h => by
    have h0 : ((stripLC line).head? == some '*') = false := by
      simp only [beq_eq_false_iff_ne, ne_eq]
      exact h line (List.mem_cons_self line rest)
    simp [projLoop, h0,
      projLoop_no_star rest parts (fun l hl => h l (List.mem_cons_of_mem line hl))]

/-- Claim C10: the join separator is pinned to a single space: the result
is the collected stripped lines interspersed with exactly one space
character and flattened, and the empty string when no line starts with
the star marker. -/
theorem description_join_single_space :
    ∀ t : List Char,
      extraction_project_name t =
        (List.intersperse [' '] (projLoop (splitNL t) false [])).flatten ∧
      ((∀ l ∈ splitNL t, ¬ (stripLC l).head? = some '*') →
        extraction_project_name t = []) := by
  intro t
  refine ⟨pyJoin_eq_flatten_intersperse [' '] _, fun h => ?_⟩
  unfold extraction_project_name
  rw [projLoop_no_star (splitNL t) [] h]
  rfl

/-- Witness for C10: a text with no star line yields the empty string. -/
theorem description_join_single_space_witness :
    extraction_project_name "报销项目\n金额 12".data = [] :=
  (description_join_single_space "报销项目\n金额 12".data).2 (by decide)

/-! ### Batch processor: fail-fast propagation -/

theorem traverseLoop_abort :
    ∀ (pre : List (List Char × List Char)) (fn : List Char) (e : PdfError)
      (post : List (List Char × Except PdfError (List Char)))
      (acc : List (List Char × InvoiceRecord)),
      endsWithPdf fn = true →
      traverseLoop (pre.map (fun p => (p.1, Except.ok p.2)) ++ (fn, Except.error e) :: post) acc =
        Except.error (e, acc ++ (pre.filter (fun p => endsWithPdf p.1)).map
          (fun p => (p.1, buildRecord p.2)))
  | [], fn, e, post, acc, hf => by
    simp [traverseLoop, hf, extract_invoice_data]
  | (f, t) :: pre, fn, e, post, acc, hf => by
    by_cases hp : endsWithPdf f = true
    · have ih := traverseLoop_abort pre fn e post (acc ++ [(f, buildRecord t)]) hf
      simp [traverseLoop, extract_invoice_data, hp, ih, List.append_eq, List.filter_cons]
    · have hp' : endsWithPdf f = false := by simpa using hp
      have ih := traverseLoop_abort pre fn e post acc hf
      simp [traverseLoop, extract_invoice_data, hp', ih, List.append_eq, List.filter_cons]

/-- Claim C4: the batch loop is fail-fast.  When every document before
some pdf entry acquires its text successfully and that entry's text
acquisition fails, the error is raised immediately: the outcome is that
error paired with the successful entries for the preceding pdf documents
in order, and no entry of the remainder of the listing is processed. -/
theorem batch_fail_fast :
    ∀ (pre : List (List Char × List Char)) (fn : List Char) (e : PdfError)
      (post : List (List Char × Except PdfError (List Char))),
      endsWithPdf fn = true →
      traverse_pdf_files (pre.map (fun p => (p.1, Except.ok p.2)) ++ (fn, Except.error e) :: post) =
        Except.error (e, (pre.filter (fun p => endsWithPdf p.1)).map
          (fun p => (p.1, buildRecord p.2))) := by
  intro pre fn e post hf
  unfold traverse_pdf_files
  simpa using traverseLoop_abort pre fn e post [] hf

/-- Witness for C4: with two pdf documents of which the second's text
acquisition fails, the raised error carries exactly one successful entry,
the one for the first document. -/
theorem batch_fail_fast_witness :
    traverse_pdf_files
        [("a.pdf".data, Except.ok "发票 ¥1.00".data),
         ("b.pdf".data, Except.error "坏文件".data)] =
      Except.error ("坏文件".data, [("a.pdf".data, buildRecord "发票 ¥1.00".data)]) := by
  have h := batch_fail_fast [("a.pdf".data, "发票 ¥1.00".data)] "b.pdf".data "坏文件".data []
    (by decide)
  simpa using h

/-! ### Date extractor: leftmost-match characterisation -/

theorem searchDateGroups_eq_none :
    ∀ l : List Char, searchDateGroups l = none ↔ ∀ i, dateMatchAt (l.drop i) = none
  | [] => by
    constructor
    · intro h i
      simp only [searchDateGroups] at h
      simpa using h
    · intro h
      simpa [searchDateGroups] using h 0
  | c :: rest => by
    constructor
    · intro h i
      cases hm : dateMatchAt (c :: rest) with
      | some g => simp [searchDateGroups, hm] at h
      | none =>
        cases i with
        | zero => simpa using hm
        | succ k =>
          have h2 : searchDateGroups rest = none := by
            simpa [searchDateGroups, hm] using h
          simpa using ((searchDateGroups_eq_none rest).mp h2) k
    · intro h
      have h0 : dateMatchAt (c :: rest) = none := by simpa using h 0
      have h2 : searchDateGroups rest = none :=
        (searchDateGroups_eq_none rest).mpr (fun i => by simpa using h (i + 1))
      simp [searchDateGroups, h0, h2]

theorem searchDateGroups_first :
    ∀ (l : List Char) (i : Nat) (g : List Char × List Char × List Char),
      dateMatchAt (l.drop i) = some g →
      (∀ j, j < i → dateMatchAt (l.drop j) = none) →
      searchDateGroups l = some g
  | [], _, g, hm, _ => by
    rw [List.drop_nil] at hm
    simpa [searchDateGroups] using hm
  | c :: rest, 0, g, hm, _ => by
    rw [List.drop_zero] at hm
    simp [searchDateGroups, hm]
  | c :: rest, i + 1, g, hm, hj => by
    have h0 : dateMatchAt (c :: rest) = none := by simpa using hj 0 (Nat.succ_pos i)
    have hrec := searchDateGroups_first rest i g (by simpa using hm)
      (fun j hjlt => by simpa using hj (j + 1) (Nat.succ_lt_succ hjlt))
    simpa [searchDateGroups, h0] using hrec

/-- Claim C6: the date extractor returns, for the first position at which
the date pattern matches, the captured year, month and day numerals
reassembled with the whitespace removed and the unit characters restored,
and none exactly when the pattern matches at no position.  The matcher
performs no calendar validation, as the month-13 witness shows. -/
theorem date_first_match :
    ∀ t : List Char,
      (extraction_issue_date t = none ↔ ∀ i, dateMatchAt (t.drop i) = none) ∧
      (∀ (i : Nat) (y m d : List Char),
        dateMatchAt (t.drop i) = some (y, m, d) →
        (∀ j, j < i → dateMatchAt (t.drop j) = none) →
        extraction_issue_date t = some (y ++ '年' :: (m ++ '月' :: (d ++ ['日'])))) := by
  intro t
  constructor
  · unfold extraction_issue_date
    rw [Option.map_eq_none']
    exact searchDateGroups_eq_none t
  · intro i y m d hm hj
    unfold extraction_issue_date
    rw [searchDateGroups_first t i (y, m, d) hm hj]
    rfl

/-- Witness for C6: the pattern tolerates interior whitespace, a month of
13 is accepted without calendar validation, and the result is reassembled
without the whitespace. -/
theorem date_first_match_witness :
    extraction_issue_date "发票x 2024 年 13 月 5 日".data = some "2024年13月5日".data := by
  have h := (date_first_match "发票x 2024 年 13 月 5 日".data).2 4
    "2024".data "13".data "5".data (by decide) (by decide)
  exact h.trans (by decide)

/-! ### Amount extractor: shape of a match -/

theorem isDigitChar_dot : isDigitChar '.' = false := by decide

theorem amountMatchAt_some :
    ∀ {l cap r : List Char}, amountMatchAt l = some (cap, r) →
      ∃ m ws ds d1 d2,
        l = m :: (ws ++ ds ++ '.' :: d1 :: d2 :: r) ∧
        isMarkerChar m = true ∧ (∀ c ∈ ws, isSpaceChar c = true) ∧
        ds ≠ [] ∧ (∀ c ∈ ds, isDigitChar c = true) ∧
        isDigitChar d1 = true ∧ isDigitChar d2 = true ∧
        cap = ds ++ '.' :: [d1, d2] := by
  intro l cap r h
  cases l with
  | nil => simp [amountMatchAt] at h
  | cons c tail =>
    simp only [amountMatchAt] at h
    split at h
    case isFalse => exact absurd h (by simp)
    case isTrue hm =>
      split at h
      case isTrue => exact absurd h (by simp)
      case isFalse hne =>
        split at h
        case h_2 => exact absurd h (by simp)
        case h_1 d1 d2 r3 heq =>
          split at h
          case isFalse => exact absurd h (by simp)
          case isTrue hd =>
            obtain ⟨hcap, hr⟩ := Prod.mk.injEq .. ▸ Option.some.injEq .. ▸ h
            refine ⟨c, List.takeWhile isSpaceChar tail,
              List.takeWhile isDigitChar (dropWS tail), d1, d2, ?_, hm, ?_, ?_, ?_, ?_, ?_, ?_⟩
            · have htail : List.takeWhile isSpaceChar tail ++ dropWS tail = tail :=
                List.takeWhile_append_dropWhile isSpaceChar tail
              have hr1 : List.takeWhile isDigitChar (dropWS tail) ++
                  ('.' :: d1 :: d2 :: r3) = dropWS tail := by
                rw [← heq]
                exact List.takeWhile_append_dropWhile isDigitChar (dropWS tail)
              rw [hr] at hr1
              rw [List.append_assoc, hr1, htail]
            · exact fun x hx => List.mem_takeWhile_imp hx
            · intro hnil
              rw [hnil] at hne
              exact hne rfl
            · exact fun x hx => List.mem_takeWhile_imp hx
            · exact (Bool.and_eq_true _ _ ▸ hd).1
            · exact (Bool.and_eq_true _ _ ▸ hd).2
            · rw [← hcap]

theorem amountMatchAt_of_shape (m : Char) (ws ds : List Char) (d1 d2 : Char)
    (post : List Char) (hm : isMarkerChar m = true)
    (hws : ∀ c ∈ ws, isSpaceChar c = true) (hds : ds ≠ [])
    (hdall : ∀ c ∈ ds, isDigitChar c = true)
    (h1 : isDigitChar d1 = true) (h2 : isDigitChar d2 = true) :
    amountMatchAt (m :: (ws ++ ds ++ '.' :: d1 :: d2 :: post)) =
      some (ds ++ '.' :: [d1, d2], post) := by
  obtain ⟨a, as, rfl⟩ : ∃ a as, ds = a :: as := by
    cases ds with
    | nil => exact absurd rfl hds
    | cons a as => exact ⟨a, as, rfl⟩
  have ha : isDigitChar a = true := hdall a (List.mem_cons_self a as)
  have hdw : dropWS (((a :: as) ++ '.' :: d1 :: d2 :: post)) =
      (a :: as) ++ '.' :: d1 :: d2 :: post := by
    unfold dropWS
    simp [List.dropWhile_cons, isSpaceChar_of_isDigitChar ha]
  have hdw2 : dropWS ((ws ++ (a :: as)) ++ '.' :: d1 :: d2 :: post) =
      (a :: as) ++ '.' :: d1 :: d2 :: post := by
    rw [List.append_assoc]
    unfold dropWS
    rw [List.dropWhile_append_of_pos hws]
    exact hdw
  have htk : List.takeWhile isDigitChar ((a :: as) ++ '.' :: d1 :: d2 :: post) = a :: as := by
    rw [List.takeWhile_append_of_pos hdall]
    simp [List.takeWhile_cons, isDigitChar_dot]
  have hdr : List.dropWhile isDigitChar ((a :: as) ++ '.' :: d1 :: d2 :: post) =
      '.' :: d1 :: d2 :: post := by
    rw [List.dropWhile_append_of_pos hdall]
    simp [List.dropWhile_cons, isDigitChar_dot]
  simp only [amountMatchAt, hm, if_true, hdw2, htk, hdr]
  simp [h1, h2]

theorem isMarkerChar_dot : isMarkerChar '.' = false := by decide

theorem amountMatchAt_rest_lt {l cap r : List Char}
    (h : amountMatchAt l = some (cap, r)) : r.length < l.length := by
  obtain ⟨m, ws, ds, d1, d2, hl, -⟩ := amountMatchAt_some h
  rw [hl]
  simp [List.length_append]
  omega

/-! ### Amount extractor: the scan finds exactly the occurrences -/

theorem amountFindAllF_sound :
    ∀ (fuel : Nat) (l cap : List Char),
      cap ∈ amountFindAllF fuel l → IsAmountOccurrence l cap
  | 0, l, cap, h => by simp [amountFindAllF] at h
  | _ + 1, [], cap, h => by simp [amountFindAllF] at h
  | fuel + 1, c :: tail, cap, h => by
    cases hma : amountMatchAt (c :: tail) with
    | some pr =>
      obtain ⟨cap0, r⟩ := pr
      simp only [amountFindAllF, hma] at h
      obtain ⟨m0, ws0, ds0, e1, e2, hl, hm0, hws0, hds0, hdall0, he1, he2, hcap0⟩ :=
        amountMatchAt_some hma
      rcases List.mem_cons.mp h with rfl | htail
      · exact ⟨0, m0, ws0, ds0, e1, e2, r, by simpa using hl, hm0, hws0, hds0, hdall0,
          he1, he2, hcap0⟩
      · obtain ⟨i, m, ws, ds, d1, d2, post, hdrop, hm, hws, hds, hdall, h1, h2, hcap⟩ :=
          amountFindAllF_sound fuel r cap htail
        have hCl : c :: tail = (m0 :: ((ws0 ++ ds0) ++ ['.', e1, e2])) ++ r := by
          rw [hl]
          simp
        refine ⟨(m0 :: ((ws0 ++ ds0) ++ ['.', e1, e2])).length + i,
          m, ws, ds, d1, d2, post, ?_, hm, hws, hds, hdall, h1, h2, hcap⟩
        rw [hCl, ← List.drop_drop, List.drop_left]
        exact hdrop
    | none =>
      simp only [amountFindAllF, hma] at h
      obtain ⟨i, m, ws, ds, d1, d2, post, hdrop, hm, hws, hds, hdall, h1, h2, hcap⟩ :=
        amountFindAllF_sound fuel tail cap h
      exact ⟨i + 1, m, ws, ds, d1, d2, post, by simpa using hdrop, hm, hws, hds, hdall,
        h1, h2, hcap⟩

theorem amountFindAllF_complete :
    ∀ (fuel : Nat) (l cap : List Char), l.length ≤ fuel →
      IsAmountOccurrence l cap → cap ∈ amountFindAllF fuel l
  | 0, l, cap, hlen, hocc => by
    obtain ⟨i, m, ws, ds, d1, d2, post, hdrop, -⟩ := hocc
    have hnil : l = [] := List.eq_nil_of_length_eq_zero (Nat.le_zero.mp hlen)
    rw [hnil, List.drop_nil] at hdrop
    exact absurd hdrop (by simp)
  | _ + 1, [], cap, hlen, hocc => by
    obtain ⟨i, m, ws, ds, d1, d2, post, hdrop, -⟩ := hocc
    rw [List.drop_nil] at hdrop
    exact absurd hdrop (by simp)
  | fuel + 1, c :: tail, cap, hlen, hocc => by
    obtain ⟨i, m, ws, ds, d1, d2, post, hdrop, hm, hws, hds, hdall, h1, h2, hcap⟩ := hocc
    cases hma : amountMatchAt (c :: tail) with
    | none =>
      cases i with
      | zero =>
        rw [List.drop_zero] at hdrop
        rw [hdrop, amountMatchAt_of_shape m ws ds d1 d2 post hm hws hds hdall h1 h2] at hma
        exact absurd hma (by simp)
      | succ k =>
        have hocc2 : IsAmountOccurrence tail cap :=
          ⟨k, m, ws, ds, d1, d2, post, by simpa using hdrop, hm, hws, hds, hdall,
            h1, h2, hcap⟩
        have hmem := amountFindAllF_complete fuel tail cap
          (by simpa using Nat.le_of_succ_le_succ hlen) hocc2
        simpa only [amountFindAllF, hma] using hmem
    | some pr =>
      obtain ⟨cap0, r⟩ := pr
      obtain ⟨m0, ws0, ds0, e1, e2, hl, hm0, hws0, hds0, hdall0, he1, he2, hcap0⟩ :=
        amountMatchAt_some hma
      have hCl : c :: tail = (m0 :: ((ws0 ++ ds0) ++ ['.', e1, e2])) ++ r := by
        rw [hl]
        simp
      by_cases hi : (m0 :: ((ws0 ++ ds0) ++ ['.', e1, e2])).length ≤ i
      · have hdrop2 : r.drop (i - (m0 :: ((ws0 ++ ds0) ++ ['.', e1, e2])).length) =
            m :: (ws ++ ds ++ '.' :: d1 :: d2 :: post) := by
          have heq : (c :: tail).drop i =
              r.drop (i - (m0 :: ((ws0 ++ ds0) ++ ['.', e1, e2])).length) := by
            conv_lhs => rw [hCl,
              show i = (m0 :: ((ws0 ++ ds0) ++ ['.', e1, e2])).length +
                (i - (m0 :: ((ws0 ++ ds0) ++ ['.', e1, e2])).length) from by omega]
            rw [← List.drop_drop, List.drop_left]
          rw [← heq, hdrop]
        have hocc2 : IsAmountOccurrence r cap :=
          ⟨_, m, ws, ds, d1, d2, post, hdrop2, hm, hws, hds, hdall, h1, h2, hcap⟩
        have hrlt : r.length < (c :: tail).length := amountMatchAt_rest_lt hma
        have hlen2 : r.length ≤ fuel := by
          have := hlen
          simp only [List.length_cons] at this hrlt
          omega
        have hmem := amountFindAllF_complete fuel r cap hlen2 hocc2
        simp only [amountFindAllF, hma]
        exact List.mem_cons_of_mem cap0 hmem
      · cases i with
        | zero =>
          rw [List.drop_zero] at hdrop
          have hsh := amountMatchAt_of_shape m ws ds d1 d2 post hm hws hds hdall h1 h2
          rw [← hdrop, hma] at hsh
          have hcap0eq : cap0 = ds ++ '.' :: [d1, d2] := by
            have hsh2 := Option.some.inj hsh
            exact congrArg Prod.fst hsh2
          simp only [amountFindAllF, hma]
          rw [hcap, ← hcap0eq]
          exact List.mem_cons_self cap0 _
        | succ k =>
          exfalso
          have hhead : (c :: tail)[(k + 1)]? = some m := by
            rw [← head?_drop_eq, hdrop]
            rfl
          have hil : (k + 1) < (m0 :: ((ws0 ++ ds0) ++ ['.', e1, e2])).length := by omega
          rw [hCl, List.getElem?_append_left hil] at hhead
          have hbody : ((ws0 ++ ds0) ++ ['.', e1, e2])[k]? = some m := by
            simpa using hhead
          have hmm : m ∈ (ws0 ++ ds0) ++ ['.', e1, e2] := List.getElem?_mem hbody
          have hmarker : isMarkerChar m = false := by
            rcases List.mem_append.mp hmm with hin | hin
            · rcases List.mem_append.mp hin with hin2 | hin2
              · exact isMarkerChar_of_isSpaceChar (hws0 m hin2)
              · exact isMarkerChar_of_isDigitChar (hdall0 m hin2)
            · simp only [List.mem_cons, List.mem_singleton] at hin
              rcases hin with rfl | rfl | hin2
              · exact isMarkerChar_dot
              · exact isMarkerChar_of_isDigitChar he1
              · rcases hin2 with rfl | hfalse
                · exact isMarkerChar_of_isDigitChar he2
                · exact absurd hfalse (by simp)
          rw [hmarker] at hm
          exact Bool.false_ne_true hm

theorem amountFindAll_iff (t cap : List Char) :
    cap ∈ amountFindAll t ↔ IsAmountOccurrence t cap :=
  ⟨amountFindAllF_sound t.length t cap,
    amountFindAllF_complete t.length t cap (Nat.le_refl _)⟩

/-- Claim C7: the candidate list of the amount extractor holds exactly
the captured numeral parts of the occurrences, anywhere in the text, of
a currency marker followed by optional whitespace, a nonempty digit run,
a period and two digits.  A currency-tagged number with more than two
decimal digits is itself no candidate: for the text yen-1.234 the sole
candidate is its two-decimal prefix 1.23, and 1.234 is not in the list. -/
theorem amount_candidate_exactness :
    (∀ t cap : List Char, cap ∈ amountFindAll t ↔ IsAmountOccurrence t cap) ∧
    amountFindAll "¥1.234".data = ["1.23".data] ∧
    "1.234".data ∉ amountFindAll "¥1.234".data := by
  refine ⟨amountFindAll_iff, by decide, by decide⟩

/-- Witness for C7: applying the characterisation to one concrete
occurrence with interior whitespace. -/
theorem amount_candidate_exactness_witness :
    "2.50".data ∈ amountFindAll "共 ¥ 2.50 元".data := by
  have h := amount_candidate_exactness.1 "共 ¥ 2.50 元".data "2.50".data
  exact h.mpr ⟨2, '¥', [' '], ['2'], '5', '0', [' ', '元'], by decide, by decide,
    by decide, by decide, by decide, by decide, by decide, by decide⟩

/-! ### Amount extractor: candidates always convert to a value -/

theorem parseDecimal2_of_shape (ds : List Char) (d1 d2 : Char) (hds : ds ≠ [])
    (hdall : ∀ c ∈ ds, isDigitChar c = true)
    (h1 : isDigitChar d1 = true) (h2 : isDigitChar d2 = true) :
    ∃ q, parseDecimal2 (ds ++ '.' :: [d1, d2]) = some q := by
  have htk : List.takeWhile isDigitChar (ds ++ '.' :: [d1, d2]) = ds := by
    rw [List.takeWhile_append_of_pos hdall]
    simp [List.takeWhile_cons, isDigitChar_dot]
  have hdr : List.dropWhile isDigitChar (ds ++ '.' :: [d1, d2]) = '.' :: [d1, d2] := by
    rw [List.dropWhile_append_of_pos hdall]
    simp [List.dropWhile_cons, isDigitChar_dot]
  refine ⟨(digitsVal ds : ℚ) + (digitsVal [d1, d2] : ℚ) / 100, ?_⟩
  simp only [parseDecimal2, htk, hdr]
  have hne : ds.isEmpty = false := by
    cases ds with
    | nil => exact absurd rfl hds
    | cons a as => rfl
  simp [hne, h1, h2]

theorem candidate_parses {t cap : List Char} (h : cap ∈ amountFindAll t) :
    ∃ q, parseDecimal2 cap = some q := by
  obtain ⟨i, m, ws, ds, d1, d2, post, hdrop, hm, hws, hds, hdall, h1, h2, hcap⟩ :=
    amountFindAllF_sound t.length t cap h
  rw [hcap]
  exact parseDecimal2_of_shape ds d1 d2 hds hdall h1 h2

/-- Claim C1: the amount disambiguation policy: no candidate yields none,
a single candidate yields its decimal value, exactly two candidates yield
none, and three or more candidates yield the decimal value of the
candidate at index two in document order. -/
theorem amount_disambiguation_policy :
    ∀ t : List Char,
      (amountFindAll t = [] → extraction_amount t = none) ∧
      (∀ m, amountFindAll t = [m] →
        extraction_amount t = parseDecimal2 m ∧ ∃ q, parseDecimal2 m = some q) ∧
      ((amountFindAll t).length = 2 → extraction_amount t = none) ∧
      (∀ m, (amountFindAll t)[2]? = some m →
        extraction_amount t = parseDecimal2 m ∧ ∃ q, parseDecimal2 m = some q) := by
  intro t
  refine ⟨fun h0 => ?_, fun m hmq => ?_, fun h2 => ?_, fun m hmq => ?_⟩
  · simp [extraction_amount, h0]
  · constructor
    · simp [extraction_amount, hmq]
    · exact candidate_parses (hmq ▸ List.mem_cons_self m [])
  · cases hE : amountFindAll t with
    | nil => simp [extraction_amount, hE]
    | cons a tail =>
      cases tail with
      | nil =>
        rw [hE] at h2
        simp at h2
      | cons b rest =>
        cases rest with
        | nil => simp [extraction_amount, hE]
        | cons cc rest2 =>
          exfalso
          rw [hE] at h2
          simp only [List.length_cons] at h2
          omega
  · cases hE : amountFindAll t with
    | nil =>
      rw [hE] at hmq
      simp at hmq
    | cons a tail =>
      cases tail with
      | nil =>
        rw [hE] at hmq
        simp at hmq
      | cons b rest =>
        have hmem : m ∈ amountFindAll t := List.getElem?_mem hmq
        rw [hE] at hmq
        simp only [List.getElem?_cons_succ] at hmq
        refine ⟨?_, candidate_parses hmem⟩
        simp only [extraction_amount, hE, List.getElem?_cons_succ]
        rw [hmq]

/-- Witness for C1: four candidates are present and the value returned is
that of the third, 3.00. -/
theorem amount_disambiguation_policy_witness :
    extraction_amount "¥1.00 ￥2.00 ¥3.00 ¥4.00".data = some 3 := by
  have h := (amount_disambiguation_policy "¥1.00 ￥2.00 ¥3.00 ¥4.00".data).2.2.2
    "3.00".data (by decide)
  have h300 : parseDecimal2 "3.00".data =
      some ((((3 : Nat) : ℚ)) + (((0 : Nat) : ℚ)) / 100) := rfl
  refine h.1.trans (h300.trans ?_)
  simp

/-! ### Invoice number extractor: strategy order and no retry -/

/-- Claim C3: the number extractor applies its three strategies in fixed
order, returning the first success: the first isolated twenty-digit run;
else the first labeled eight-digit form; else the first isolated bare
eight-digit run, accepted only when the literal twenty-character window
around it contains a context marker.  When that first bare candidate
lacks context the function returns none: on noRetryText the first bare
run at index 22 has a context-free window even though the later run at
index 56 sits next to the invoice word, and the result is none. -/
theorem number_strategy_order :
    (∀ (t : List Char) (p : Nat × List Char),
      searchIsolated 20 none 0 t = some p → extraction_invoice_number t = some p.2) ∧
    (∀ (t ds : List Char), searchIsolated 20 none 0 t = none → s2search t = some ds →
      extraction_invoice_number t = some ds) ∧
    (∀ (t : List Char) (start : Nat) (ds : List Char),
      searchIsolated 20 none 0 t = none → s2search t = none →
      searchIsolated 8 none 0 t = some (start, ds) →
      (hasContext (pySlice t (start - 20) (min t.length (start + 8 + 20))) = true →
        extraction_invoice_number t = some ds) ∧
      (hasContext (pySlice t (start - 20) (min t.length (start + 8 + 20))) = false →
        extraction_invoice_number t = none)) ∧
    (∀ t : List Char, searchIsolated 20 none 0 t = none → s2search t = none →
      searchIsolated 8 none 0 t = none → extraction_invoice_number t = none) ∧
    extraction_invoice_number noRetryText = none ∧
    searchIsolated 8 none 0 noRetryText = some (22, "12345678".data) ∧
    hasContext (pySlice noRetryText 2 50) = false ∧
    isolatedDigits 8 (noRetryText.drop 56) = some "87654321".data ∧
    hasContext (pySlice noRetryText 36 (min noRetryText.length 84)) = true := by
  refine ⟨?_, ?_, ?_, ?_, by decide, by decide, by decide, by decide, by decide⟩
  · intro t p h1
    simp [extraction_invoice_number, h1]
  · intro t ds h1 h2
    simp [extraction_invoice_number, h1, h2]
  · intro t start ds h1 h2 h3
    constructor
    · intro hc
      simp [extraction_invoice_number, h1, h2, h3, hc]
    · intro hc
      simp [extraction_invoice_number, h1, h2, h3, hc]
  · intro t h1 h2 h3
    simp [extraction_invoice_number, h1, h2, h3]

/-- Witness for C3: the labeled eight-digit strategy fires when the
twenty-digit strategy fails. -/
theorem number_strategy_order_witness :
    extraction_invoice_number "发票号码：12345678x".data = some "12345678".data :=
  number_strategy_order.2.1 "发票号码：12345678x".data "12345678".data
    (by decide) (by decide)

end Pypdf
